import Mathlib

/-!
Shallow embedding of `src/collector.py` (Binance USDS-M futures data
collector) and proofs about its core components: the throttled HTTP
fetcher `_get`, the backward-cursor pagination engine `paginate_fetch`,
the collection driver `collect_symbol` and the `main` entry point.

External effects are modelled as oracles passed in explicitly:
the HTTP layer is a function from the attempt index to a classified
response, the random jitter draw is a function from the attempt index
to a rational, and the fetcher used by the pagination engine is a
function from the call index and the request parameters to a classified
JSON payload (exactly the way the repository's tests stub `_get`).
Unbounded `while True` loops become fuel-indexed recursions that return
`none` when the fuel runs out, and the pagination loop additionally
records the trace of requests it issued so that statements about
"issues a follow-up request" can be made directly.
-/

namespace Collector

/-! ## Module-level configuration constants (verbatim from the source) -/

def SYMBOLS : List String := ["ARBUSDT", "BTCUSDT", "ETHUSDT"]

def INTERVAL : String := "15m"

def DAYS : Nat := 30

def OUT_DIR : String := "data"

def OI_PERIOD : String := "1h"

def RATIO_PERIOD : String := "1h"

def MAX_KLINE_LIMIT : Nat := 1500

def MAX_STAT_LIMIT : Nat := 500

def MAX_RETRIES : Nat := 5

/-! ## Throttled HTTP fetcher `_get` -/

/-- One result of `SESSION.get(url, params=params, timeout=15)`, as `_get`
classifies it: either a network-level `requests.RequestException`, or an HTTP
response carrying a status code, an optional parsed `Retry-After` header
(seconds) and a parsed JSON body. -/
inductive Resp (β : Type) where
  | netErr : Resp β
  | http (code : Nat) (retryAfter : Option ℚ) (body : β) : Resp β

/-- The error raised by `_get`: re-raise of the network exception after the
retry ceiling, the `RuntimeError("Rate limited ...")`, or the `HTTPError`
raised by `response.raise_for_status()` (which in `requests` fires exactly for
status codes in `[400, 600)`). -/
inductive GetError where
  | netExhausted : GetError
  | rateLimited : GetError
  | httpError (code : Nat) : GetError
deriving DecidableEq

/-- The value `_get` produces when it returns or raises: the parsed JSON body
(HTTP 200), Python `None` (HTTP 400), or a raised error. -/
inductive GetOutcome (β : Type) where
  | json (body : β) : GetOutcome β
  | nothing : GetOutcome β
  | raised (e : GetError) : GetOutcome β
deriving DecidableEq

/-- `jitter_delay(base_delay) = base_delay + random.uniform(0, 1)`; the random
draw is supplied by the jitter oracle. -/
def jitter_delay (jit : ℚ) (base_delay : ℚ) : ℚ := base_delay + jit

/-- The `while True` retry loop of `_get`.  `a` counts completed attempts
(so the source's `attempts` variable equals `a + 1` inside an iteration),
`backoff` is the current exponential backoff value (starting at `5.0`), and
`sleeps` accumulates every duration passed to `time.sleep`.  The response
oracle `resp` is indexed by the attempt number and the jitter oracle `jit` by
the attempt at which the draw happens.  Fuel exhaustion yields `none`. -/
def getLoop {β : Type} (resp : Nat → Resp β) (jit : Nat → ℚ) :
    Nat → Nat → ℚ → List ℚ → Option (GetOutcome β × List ℚ)
  | 0, _, _, _ => none
  | fuel + 1, a, backoff, sleeps =>
    match resp a with
    | .netErr =>
      if a + 1 > MAX_RETRIES then some (.raised .netExhausted, sleeps)
      else getLoop resp jit fuel (a + 1) (backoff * 2)
        (sleeps ++ [jitter_delay (jit a) backoff])
    | .http code retryAfter body =>
      if code = 200 then some (.json body, sleeps)
      else if code = 429 ∨ code = 418 then
        if a + 1 > MAX_RETRIES then some (.raised .rateLimited, sleeps)
        else getLoop resp jit fuel (a + 1) (min (backoff * 2) 60)
          (sleeps ++ [jitter_delay (jit a)
            (match retryAfter with | some r => r | none => backoff)])
      else if code = 400 then some (.nothing, sleeps)
      else if 400 ≤ code ∧ code < 600 then some (.raised (.httpError code), sleeps)
      else getLoop resp jit fuel (a + 1) backoff sleeps

/-- `_get(path, params)` for a fixed path and params: run the retry loop with
`attempts = 0` and `backoff = 5.0`, returning the outcome together with the
list of sleep durations, or `none` if the loop runs longer than `fuel`
iterations. -/
def _get {β : Type} (resp : Nat → Resp β) (jit : Nat → ℚ) (fuel : Nat) :
    Option (GetOutcome β × List ℚ) :=
  getLoop resp jit fuel 0 5 []

/-! ## Pagination engine `paginate_fetch` -/

/-- The query-parameter dictionary built by one iteration of the pagination
loop: `{"symbol": symbol, "limit": limit}`, plus `endTime` when the cursor is
set, plus whatever fixed parameters `build_params` adds (`interval`, `period`
or a `startTime` floor at the five call sites); the latter are constant across
iterations and are modelled by the opaque component `extra`. -/
structure Request (E : Type) where
  symbol : String
  limit : Nat
  endTime : Option Int
  extra : E
deriving DecidableEq

/-- The JSON payload `_get` hands back to the pagination loop, as the loop
classifies it: a falsy value (`None`, `[]`, `{}`, ... — `if not payload`),
a dict carrying a `"code"` field (API error object), some other non-list
value, or a list of rows. -/
inductive Payload (Row : Type) where
  | nullish : Payload Row
  | errorDict : Payload Row
  | notList : Payload Row
  | rows (rs : List Row) : Payload Row

/-- The `while True` loop of `paginate_fetch`.  `idx` is the number of fetch
calls already made (the oracle `fetch` is indexed by it, matching a stateful
stub), `end_time` the backward cursor, `all_rows` the accumulator and `trace`
the list of requests issued so far.  Each iteration issues one request; the
payload breaks the loop unless it is a non-empty list, in which case the rows
with `timestamp ≥ earliest_ms` are appended and the loop continues with
`endTime = first_ts - 1` exactly when the page is full and the first
(unfiltered) row's timestamp exceeds `earliest_ms`. -/
def paginateLoop {Row E : Type} (fetch : Nat → Request E → Payload Row)
    (extract_timestamp : Row → Int) (symbol : String) (limit : Nat)
    (earliest_ms : Int) (extra : E) :
    Nat → Nat → Option Int → List Row → List (Request E) →
      Option (List Row) × List (Request E)
  | 0, _, _, _, trace => (none, trace)
  | fuel + 1, idx, end_time, all_rows, trace =>
    match fetch idx ⟨symbol, limit, end_time, extra⟩ with
    | .nullish => (some all_rows, trace ++ [⟨symbol, limit, end_time, extra⟩])
    | .errorDict => (some all_rows, trace ++ [⟨symbol, limit, end_time, extra⟩])
    | .notList => (some all_rows, trace ++ [⟨symbol, limit, end_time, extra⟩])
    | .rows [] => (some all_rows, trace ++ [⟨symbol, limit, end_time, extra⟩])
    | .rows (r :: rest) =>
      if (r :: rest).length = limit ∧ earliest_ms < extract_timestamp r then
        paginateLoop fetch extract_timestamp symbol limit earliest_ms extra fuel
          (idx + 1) (some (extract_timestamp r - 1))
          (all_rows ++ (r :: rest).filter
            (fun row => decide (earliest_ms ≤ extract_timestamp row)))
          (trace ++ [⟨symbol, limit, end_time, extra⟩])
      else
        (some (all_rows ++ (r :: rest).filter
            (fun row => decide (earliest_ms ≤ extract_timestamp row))),
          trace ++ [⟨symbol, limit, end_time, extra⟩])

/-- `unique_map[k] = v` update on the association-list model of the Python
dict: overwrite the entry with key `k` in place if present, else append. -/
def upsert {Row : Type} (k : Int) (v : Row) :
    List (Int × Row) → List (Int × Row)
  | [] => [(k, v)]
  | p :: rest => if p.1 = k then (k, v) :: rest else p :: upsert k v rest

/-- The `unique_map: dict[int, Any]` built after the loop: fold the
accumulated rows left to right, keying each row by its extracted timestamp
(last write wins). -/
def unique_map {Row : Type} (extract_timestamp : Row → Int) (rows : List Row) :
    List (Int × Row) :=
  rows.foldl (fun m row => upsert (extract_timestamp row) row m) []

/-- Ordered insertion by timestamp key, used to model
`sorted(unique_map.keys())`. -/
def insertByKey {Row : Type} (p : Int × Row) :
    List (Int × Row) → List (Int × Row)
  | [] => [p]
  | q :: rest => if p.1 ≤ q.1 then p :: q :: rest else q :: insertByKey p rest

/-- Insertion sort of the association list by timestamp key. -/
def sortByKey {Row : Type} (l : List (Int × Row)) : List (Int × Row) :=
  l.foldr insertByKey []

/-- `[unique_map[key] for key in sorted(unique_map.keys())]`: since the keys
of `unique_map` are distinct, listing its values in ascending key order is the
same as sorting the association list by key and projecting the values. -/
def ordered_rows {Row : Type} (extract_timestamp : Row → Int)
    (rows : List Row) : List Row :=
  (sortByKey (unique_map extract_timestamp rows)).map (·.2)

/-- `paginate_fetch`: run the pagination loop from cursor `None`, then sort
and deduplicate.  Returns `none` if the loop runs longer than `fuel`
iterations, and in all cases the trace of issued requests. -/
def paginate_fetch {Row E : Type} (fetch : Nat → Request E → Payload Row)
    (extract_timestamp : Row → Int) (symbol : String) (limit : Nat)
    (earliest_ms : Int) (extra : E) (fuel : Nat) :
    Option (List Row) × List (Request E) :=
  match paginateLoop fetch extract_timestamp symbol limit earliest_ms extra
      fuel 0 none [] [] with
  | (some all_rows, trace) =>
    (some (ordered_rows extract_timestamp all_rows), trace)
  | (none, trace) => (none, trace)

/-! ## Series adapters (the part the claims touch) -/

/-- The defensive re-filter `frame = frame[frame["open_time"] >= earliest_ms]`
applied by the candle-like adapters after assembling the table. -/
def fetch_klines_refilter {Row : Type} (extract_timestamp : Row → Int)
    (earliest_ms : Int) (rows : List Row) : List Row :=
  rows.filter (fun row => decide (earliest_ms ≤ extract_timestamp row))

/-- `fetch_klines`: paginate with the kline page limit, then re-filter the
assembled rows by the same `earliest_ms` bound. -/
def fetch_klines {Row E : Type} (fetch : Nat → Request E → Payload Row)
    (extract_timestamp : Row → Int) (symbol : String) (earliest_ms : Int)
    (extra : E) (fuel : Nat) : Option (List Row) :=
  (paginate_fetch fetch extract_timestamp symbol MAX_KLINE_LIMIT earliest_ms
      extra fuel).1.map (fetch_klines_refilter extract_timestamp earliest_ms)

/-! ## Collection driver -/

/-- The run statistics dataclass `FetchStats`. -/
structure FetchStats where
  success : Nat
  skipped : Nat
deriving DecidableEq

/-- What one dataset task's `loader()` call does, as the driver sees it:
either it raises (any exception escaping the adapter), or it returns a table,
modelled by its list of rows (`frame.empty` iff the list is empty). -/
inductive LoadResult (Row : Type) where
  | err : LoadResult Row
  | frame (rows : List Row) : LoadResult Row
deriving DecidableEq

/-- A CSV file produced by `write_with_metadata`: its path, its first
metadata line, and the table rows that follow. -/
structure OutFile (Row : Type) where
  path : String
  metaLine : String
  rows : List Row
deriving DecidableEq

/-- `write_with_metadata(path, frame)`: prefix the table with the one-line
collection-timestamp metadata header `# collected_at_kst,<collected_at>`. -/
def write_with_metadata {Row : Type} (collected_at : String) (path : String)
    (rows : List Row) : OutFile Row :=
  ⟨path, "# collected_at_kst," ++ collected_at, rows⟩

/-- The ten task file names of `collect_symbol`, in source order. -/
def task_filenames (symbol : String) : List String :=
  [symbol ++ "_klines_" ++ INTERVAL ++ "_" ++ toString DAYS ++ "d.csv",
   symbol ++ "_oi_" ++ OI_PERIOD ++ "_" ++ toString DAYS ++ "d.csv",
   symbol ++ "_funding_" ++ toString DAYS ++ "d.csv",
   symbol ++ "_global_ls_" ++ toString DAYS ++ "d.csv",
   symbol ++ "_top_ls_accounts_" ++ toString DAYS ++ "d.csv",
   symbol ++ "_top_ls_positions_" ++ toString DAYS ++ "d.csv",
   symbol ++ "_taker_vol_" ++ toString DAYS ++ "d.csv",
   symbol ++ "_index_" ++ INTERVAL ++ "_" ++ toString DAYS ++ "d.csv",
   symbol ++ "_mark_" ++ INTERVAL ++ "_" ++ toString DAYS ++ "d.csv",
   symbol ++ "_premium_" ++ INTERVAL ++ "_" ++ toString DAYS ++ "d.csv"]

/-- Whether a task outcome leads to a file being written (a loader that
returns a non-empty table). -/
def persists {Row : Type} : LoadResult Row → Bool
  | .frame (_ :: _) => true
  | _ => false

/-- The file (if any) written for one task. -/
def fileOf {Row : Type} (collected_at : String)
    (task : String × LoadResult Row) : Option (OutFile Row) :=
  match task.2 with
  | .frame (r :: rest) =>
    some (write_with_metadata collected_at (OUT_DIR ++ "/" ++ task.1)
      (r :: rest))
  | _ => none

/-- The body of the `for filename, loader in tasks` loop: raised error or
empty table increments `skipped`; a non-empty table is written with the
metadata header and increments `success`. -/
def collectStep {Row : Type} (collected_at : String)
    (st : FetchStats × List (OutFile Row)) (task : String × LoadResult Row) :
    FetchStats × List (OutFile Row) :=
  match task.2 with
  | .err => (⟨st.1.success, st.1.skipped + 1⟩, st.2)
  | .frame [] => (⟨st.1.success, st.1.skipped + 1⟩, st.2)
  | .frame (r :: rest) =>
    (⟨st.1.success + 1, st.1.skipped⟩,
      st.2 ++ [write_with_metadata collected_at (OUT_DIR ++ "/" ++ task.1)
        (r :: rest)])

/-- `collect_symbol(symbol, out_dir, stats)`: run the ten dataset tasks in
sequence, threading the statistics and collecting the written files.  The
loaders' outcomes are supplied as a list parallel to `task_filenames`. -/
def collect_symbol {Row : Type} (symbol : String)
    (loaders : List (LoadResult Row)) (stats : FetchStats)
    (collected_at : String) : FetchStats × List (OutFile Row) :=
  ((task_filenames symbol).zip loaders).foldl (collectStep collected_at)
    (stats, [])

/-- The symbol loop of `main`: fresh `FetchStats()`, then `collect_symbol`
for each configured symbol in order. -/
def collect_all {Row : Type} (results : String → List (LoadResult Row))
    (collected_at : String) : FetchStats × List (OutFile Row) :=
  SYMBOLS.foldl (fun acc symbol =>
    ((collect_symbol symbol (results symbol) acc.1 collected_at).1,
      acc.2 ++ (collect_symbol symbol (results symbol) acc.1 collected_at).2))
    (⟨0, 0⟩, [])

/-- `main()`: run the collection and `return 0 if stats.success > 0 else 1`.
The result is the exit code together with the final statistics and files. -/
def main {Row : Type} (results : String → List (LoadResult Row))
    (collected_at : String) : Nat × FetchStats × List (OutFile Row) :=
  ((if 0 < (collect_all results collected_at).1.success then 0 else 1),
    collect_all results collected_at)

/-! ## Lemmas about the sort-and-deduplicate post-processing -/

theorem mem_insertByKey {Row : Type} (p x : Int × Row) (l : List (Int × Row)) :
    x ∈ insertByKey p l ↔ x = p ∨ x ∈ l := by
  induction l with
  | nil => simp [insertByKey]
  | cons q rest ih =>
    by_cases h : p.1 ≤ q.1
    · rw [insertByKey, if_pos h]
      simp [List.mem_cons]
    · rw [insertByKey, if_neg h]
      simp [List.mem_cons, ih]
      tauto

theorem perm_insertByKey {Row : Type} (p : Int × Row) (l : List (Int × Row)) :
    List.Perm (insertByKey p l) (p :: l) := by
  induction l with
  | nil => rw [insertByKey]
  | cons q rest ih =>
    by_cases h : p.1 ≤ q.1
    · rw [insertByKey, if_pos h]
    · rw [insertByKey, if_neg h]
      exact (ih.cons q).trans (List.Perm.swap p q rest)

theorem pairwise_insertByKey {Row : Type} (p : Int × Row)
    (l : List (Int × Row)) (hl : l.Pairwise (fun a b => a.1 ≤ b.1)) :
    (insertByKey p l).Pairwise (fun a b => a.1 ≤ b.1) := by
  induction l with
  | nil => simp [insertByKey]
  | cons q rest ih =>
    rcases List.pairwise_cons.mp hl with ⟨hq, hrest⟩
    by_cases h : p.1 ≤ q.1
    · rw [insertByKey, if_pos h]
      refine List.pairwise_cons.mpr ⟨?_, hl⟩
      intro x hx
      rcases List.mem_cons.mp hx with rfl | hx
      · exact h
      · exact le_trans h (hq x hx)
    · rw [insertByKey, if_neg h]
      refine List.pairwise_cons.mpr ⟨?_, ih hrest⟩
      intro x hx
      rcases (mem_insertByKey p x rest).mp hx with rfl | hx
      · exact le_of_not_le h
      · exact hq x hx

theorem perm_sortByKey {Row : Type} (l : List (Int × Row)) :
    List.Perm (sortByKey l) l := by
  induction l with
  | nil => exact List.Perm.refl _
  | cons p rest ih =>
    have h1 : sortByKey (p :: rest) = insertByKey p (sortByKey rest) := rfl
    rw [h1]
    exact (perm_insertByKey p (sortByKey rest)).trans (ih.cons p)

theorem pairwise_sortByKey {Row : Type} (l : List (Int × Row)) :
    (sortByKey l).Pairwise (fun a b => a.1 ≤ b.1) := by
  induction l with
  | nil => simp [sortByKey]
  | cons p rest ih =>
    have h1 : sortByKey (p :: rest) = insertByKey p (sortByKey rest) := rfl
    rw [h1]
    exact pairwise_insertByKey p _ ih

theorem keys_upsert {Row : Type} (k : Int) (v : Row) (m : List (Int × Row)) :
    (upsert k v m).map Prod.fst =
      if k ∈ m.map Prod.fst then m.map Prod.fst
      else m.map Prod.fst ++ [k] := by
  induction m with
  | nil => simp [upsert]
  | cons p rest ih =>
    by_cases h : p.1 = k
    · rw [upsert, if_pos h]
      simp [h]
    · rw [upsert, if_neg h]
      by_cases h2 : k ∈ rest.map Prod.fst
      · simp [h2, ih, Ne.symm h]
      · simp [h2, ih, Ne.symm h]

theorem nodup_keys_upsert {Row : Type} (k : Int) (v : Row)
    (m : List (Int × Row)) (h : (m.map Prod.fst).Nodup) :
    ((upsert k v m).map Prod.fst).Nodup := by
  rw [keys_upsert]
  by_cases hm : k ∈ m.map Prod.fst
  · simpa [hm] using h
  · simp only [hm, if_false]
    rw [List.nodup_append]
    exact ⟨h, List.nodup_singleton k, by simpa using hm⟩

theorem mem_upsert {Row : Type} (k : Int) (v : Row) (m : List (Int × Row))
    (x : Int × Row) (hx : x ∈ upsert k v m) : x ∈ m ∨ x = (k, v) := by
  induction m with
  | nil => simpa [upsert] using hx
  | cons p rest ih =>
    by_cases h : p.1 = k
    · rw [upsert, if_pos h] at hx
      rcases List.mem_cons.mp hx with rfl | hx
      · exact Or.inr rfl
      · exact Or.inl (List.mem_cons_of_mem _ hx)
    · rw [upsert, if_neg h] at hx
      rcases List.mem_cons.mp hx with rfl | hx
      · exact Or.inl (List.mem_cons_self _ _)
      · rcases ih hx with h2 | h2
        · exact Or.inl (List.mem_cons_of_mem _ h2)
        · exact Or.inr h2

theorem mem_unique_map_aux {Row : Type} (extract_timestamp : Row → Int)
    (rows : List Row) :
    ∀ (m : List (Int × Row)) (x : Int × Row),
      x ∈ rows.foldl (fun m row => upsert (extract_timestamp row) row m) m →
      x ∈ m ∨ (x.2 ∈ rows ∧ extract_timestamp x.2 = x.1) := by
  induction rows with
  | nil => intro m x hx; exact Or.inl hx
  | cons r rest ih =>
    intro m x hx
    rcases ih _ x hx with hm | ⟨hmem, hts⟩
    · rcases mem_upsert _ _ _ _ hm with hm2 | rfl
      · exact Or.inl hm2
      · exact Or.inr ⟨List.mem_cons_self _ _, rfl⟩
    · exact Or.inr ⟨List.mem_cons_of_mem _ hmem, hts⟩

theorem nodup_keys_unique_map_aux {Row : Type} (extract_timestamp : Row → Int)
    (rows : List Row) :
    ∀ m : List (Int × Row), (m.map Prod.fst).Nodup →
      ((rows.foldl (fun m row => upsert (extract_timestamp row) row m)
          m).map Prod.fst).Nodup := by
  induction rows with
  | nil => intro m hm; exact hm
  | cons r rest ih => intro m hm; exact ih _ (nodup_keys_upsert _ _ _ hm)

theorem mem_unique_map {Row : Type} (extract_timestamp : Row → Int)
    (rows : List Row) (x : Int × Row)
    (hx : x ∈ unique_map extract_timestamp rows) :
    x.2 ∈ rows ∧ extract_timestamp x.2 = x.1 := by
  rcases mem_unique_map_aux extract_timestamp rows [] x hx with h | h
  · simp at h
  · exact h

theorem nodup_keys_unique_map {Row : Type} (extract_timestamp : Row → Int)
    (rows : List Row) :
    ((unique_map extract_timestamp rows).map Prod.fst).Nodup :=
  nodup_keys_unique_map_aux extract_timestamp rows [] (by simp)

theorem pairwise_ordered_rows {Row : Type} (extract_timestamp : Row → Int)
    (rows : List Row) :
    (ordered_rows extract_timestamp rows).Pairwise
      (fun a b => extract_timestamp a < extract_timestamp b) := by
  have hperm : List.Perm (sortByKey (unique_map extract_timestamp rows))
      (unique_map extract_timestamp rows) := perm_sortByKey _
  have hnodup :
      ((sortByKey (unique_map extract_timestamp rows)).map Prod.fst).Nodup :=
    ((hperm.map Prod.fst).nodup_iff).mpr (nodup_keys_unique_map _ rows)
  have hle := pairwise_sortByKey (unique_map extract_timestamp rows)
  have hne : (sortByKey (unique_map extract_timestamp rows)).Pairwise
      (fun a b => a.1 ≠ b.1) := List.pairwise_map.mp hnodup
  have hlt : (sortByKey (unique_map extract_timestamp rows)).Pairwise
      (fun a b => a.1 < b.1) :=
    (hle.and hne).imp (fun h => lt_of_le_of_ne h.1 h.2)
  rw [ordered_rows, List.pairwise_map]
  refine List.Pairwise.imp_of_mem ?_ hlt
  intro a b ha hb hab
  have hts1 := (mem_unique_map extract_timestamp rows a (hperm.subset ha)).2
  have hts2 := (mem_unique_map extract_timestamp rows b (hperm.subset hb)).2
  rw [hts1, hts2]
  exact hab

theorem ordered_rows_subset {Row : Type} (extract_timestamp : Row → Int)
    (rows : List Row) (r : Row)
    (hr : r ∈ ordered_rows extract_timestamp rows) : r ∈ rows := by
  rw [ordered_rows] at hr
  rcases List.mem_map.mp hr with ⟨x, hx, rfl⟩
  exact (mem_unique_map extract_timestamp rows x
    ((perm_sortByKey _).subset hx)).1

/-! ## Lemmas about the pagination loop -/

theorem paginate_fetch_inv {Row E : Type} (fetch : Nat → Request E → Payload Row)
    (extract_timestamp : Row → Int) (symbol : String) (limit : Nat)
    (earliest_ms : Int) (extra : E) (fuel : Nat) (out : List Row)
    (h : (paginate_fetch fetch extract_timestamp symbol limit earliest_ms extra
        fuel).1 = some out) :
    ∃ acc, (paginateLoop fetch extract_timestamp symbol limit earliest_ms extra
        fuel 0 none [] []).1 = some acc ∧
      out = ordered_rows extract_timestamp acc ∧
      (paginate_fetch fetch extract_timestamp symbol limit earliest_ms extra
          fuel).2 =
        (paginateLoop fetch extract_timestamp symbol limit earliest_ms extra
          fuel 0 none [] []).2 := by
  rw [paginate_fetch] at h ⊢
  rcases hp : paginateLoop fetch extract_timestamp symbol limit earliest_ms
      extra fuel 0 none [] [] with ⟨res, tr⟩
  rw [hp] at h
  cases res with
  | none => simp at h
  | some acc =>
    simp only [Option.some.injEq] at h
    exact ⟨acc, by simp [hp], h.symm, by simp [hp]⟩

theorem paginateLoop_acc_bound {Row E : Type}
    (fetch : Nat → Request E → Payload Row) (extract_timestamp : Row → Int)
    (symbol : String) (limit : Nat) (earliest_ms : Int) (extra : E) :
    ∀ (fuel idx : Nat) (end_time : Option Int) (acc : List Row)
      (trace₀ : List (Request E)) (out : List Row)
      (trace : List (Request E)),
      (∀ r ∈ acc, earliest_ms ≤ extract_timestamp r) →
      paginateLoop fetch extract_timestamp symbol limit earliest_ms extra fuel
        idx end_time acc trace₀ = (some out, trace) →
      ∀ r ∈ out, earliest_ms ≤ extract_timestamp r := by
  intro fuel
  induction fuel with
  | zero =>
    intro idx e acc t out tr hacc h
    simp [paginateLoop] at h
  | succ fuel ih =>
    intro idx e acc t out tr hacc h
    rw [paginateLoop] at h
    rcases hf : fetch idx ⟨symbol, limit, e, extra⟩ with _ | _ | _ | rs
    · rw [hf] at h
      simp only [Prod.mk.injEq, Option.some.injEq] at h
      exact h.1 ▸ hacc
    · rw [hf] at h
      simp only [Prod.mk.injEq, Option.some.injEq] at h
      exact h.1 ▸ hacc
    · rw [hf] at h
      simp only [Prod.mk.injEq, Option.some.injEq] at h
      exact h.1 ▸ hacc
    · cases rs with
      | nil =>
        rw [hf] at h
        simp only [Prod.mk.injEq, Option.some.injEq] at h
        exact h.1 ▸ hacc
      | cons r rest =>
        rw [hf] at h
        dsimp only at h
        have hacc2 : ∀ x ∈ acc ++ (r :: rest).filter
            (fun row => decide (earliest_ms ≤ extract_timestamp row)),
            earliest_ms ≤ extract_timestamp x := by
          intro x hx
          rcases List.mem_append.mp hx with h1 | h2
          · exact hacc x h1
          · exact of_decide_eq_true (List.mem_filter.mp h2).2
        by_cases hg : (r :: rest).length = limit ∧
            earliest_ms < extract_timestamp r
        · rw [if_pos hg] at h
          exact ih _ _ _ _ _ _ hacc2 h
        · rw [if_neg hg] at h
          simp only [Prod.mk.injEq, Option.some.injEq] at h
          exact h.1 ▸ hacc2

/-- C3 (claim): every row returned by `paginate_fetch` has extracted
timestamp `≥ earliest_ms` (the per-page filter keeps only such rows before
accumulation), and the candle adapters' defensive re-filter by the same bound
leaves the result unchanged. -/
theorem paginate_fetch_earliest_bound {Row E : Type}
    (fetch : Nat → Request E → Payload Row) (extract_timestamp : Row → Int)
    (symbol : String) (limit : Nat) (earliest_ms : Int) (extra : E)
    (fuel : Nat) (out : List Row)
    (h : (paginate_fetch fetch extract_timestamp symbol limit earliest_ms extra
        fuel).1 = some out) :
    (∀ r ∈ out, earliest_ms ≤ extract_timestamp r) ∧
    fetch_klines_refilter extract_timestamp earliest_ms out = out := by
  rcases paginate_fetch_inv fetch extract_timestamp symbol limit earliest_ms
      extra fuel out h with ⟨acc, hloop, hout, -⟩
  rcases hp : paginateLoop fetch extract_timestamp symbol limit earliest_ms
      extra fuel 0 none [] [] with ⟨res, tr⟩
  rw [hp] at hloop
  simp only at hloop
  have hbound : ∀ r ∈ acc, earliest_ms ≤ extract_timestamp r := by
    apply paginateLoop_acc_bound fetch extract_timestamp symbol limit
      earliest_ms extra fuel 0 none [] [] acc tr (by simp)
    rw [hp, hloop]
  have hmain : ∀ r ∈ out, earliest_ms ≤ extract_timestamp r := by
    intro r hr
    rw [hout] at hr
    exact hbound r (ordered_rows_subset extract_timestamp acc r hr)
  refine ⟨hmain, ?_⟩
  rw [fetch_klines_refilter]
  exact List.filter_eq_self.mpr (fun r hr => decide_eq_true (hmain r hr))

/-- C2 (claim): for every fetcher oracle, the list returned by
`paginate_fetch` is sorted strictly ascending by the extracted timestamp;
in particular no two returned rows share a timestamp (duplicates were
collapsed last-write-wins into the timestamp-keyed `unique_map` before
sorting). -/
theorem paginate_fetch_sorted_nodup {Row E : Type}
    (fetch : Nat → Request E → Payload Row) (extract_timestamp : Row → Int)
    (symbol : String) (limit : Nat) (earliest_ms : Int) (extra : E)
    (fuel : Nat) (out : List Row)
    (h : (paginate_fetch fetch extract_timestamp symbol limit earliest_ms extra
        fuel).1 = some out) :
    out.Pairwise (fun a b => extract_timestamp a < extract_timestamp b) := by
  rcases paginate_fetch_inv fetch extract_timestamp symbol limit earliest_ms
      extra fuel out h with ⟨acc, -, hout, -⟩
  rw [hout]
  exact pairwise_ordered_rows extract_timestamp acc

theorem getElem?_append_cons {α : Type} (l t : List α) (x : α) :
    (l ++ x :: t)[l.length]? = some x := by
  rw [List.getElem?_append_right (le_refl _)]
  simp

/-- Full characterization of the request trace produced by the pagination
loop when it completes: the incoming trace is preserved as a prefix, the
current iteration's request is recorded right after it, and at every position
of the trace at which the oracle answered with a non-empty list of rows, a
follow-up request exists if and only if the page was full and the first row's
timestamp exceeds `earliest_ms`, in which case that follow-up request carries
`endTime = first_ts - 1`. -/
theorem paginateLoop_trace_spec {Row E : Type}
    (fetch : Nat → Request E → Payload Row) (extract_timestamp : Row → Int)
    (symbol : String) (limit : Nat) (earliest_ms : Int) (extra : E) :
    ∀ (fuel : Nat) (end_time : Option Int) (acc : List Row)
      (t₀ : List (Request E)) (out : List Row) (tr : List (Request E)),
      paginateLoop fetch extract_timestamp symbol limit earliest_ms extra fuel
        t₀.length end_time acc t₀ = (some out, tr) →
      (∃ tail, tr = t₀ ++ tail) ∧
      tr[t₀.length]? = some ⟨symbol, limit, end_time, extra⟩ ∧
      (∀ (i : Nat) (req : Request E) (rs : List Row) (hne : rs ≠ []),
        t₀.length ≤ i → tr[i]? = some req →
        fetch i req = Payload.rows rs →
        (((tr[i + 1]?).isSome ↔
            rs.length = limit ∧
              earliest_ms < extract_timestamp (rs.head hne)) ∧
          (rs.length = limit ∧ earliest_ms < extract_timestamp (rs.head hne) →
            tr[i + 1]? = some ⟨symbol, limit,
              some (extract_timestamp (rs.head hne) - 1), extra⟩))) := by
  intro fuel
  induction fuel with
  | zero =>
    intro e acc t₀ out tr h
    simp [paginateLoop] at h
  | succ fuel ih =>
    intro e acc t₀ out tr h
    rw [paginateLoop] at h
    rcases hf : fetch t₀.length ⟨symbol, limit, e, extra⟩ with _ | _ | _ | rs
    · rw [hf] at h
      dsimp only at h
      have htr : tr = t₀ ++ [⟨symbol, limit, e, extra⟩] :=
        (congrArg Prod.snd h).symm
      subst htr
      refine ⟨⟨_, rfl⟩, getElem?_append_cons _ _ _, ?_⟩
      intro i req rs hne hi hreq hfetch
      have hlen : i < (t₀ ++ [(⟨symbol, limit, e, extra⟩ : Request E)]).length :=
        (List.getElem?_eq_some.mp hreq).1
      have hieq : i = t₀.length := by
        simp only [List.length_append, List.length_cons, List.length_nil] at hlen
        omega
      subst hieq
      rw [getElem?_append_cons] at hreq
      injection hreq with h2
      subst h2
      rw [hf] at hfetch
      exact Payload.noConfusion hfetch
    · rw [hf] at h
      dsimp only at h
      have htr : tr = t₀ ++ [⟨symbol, limit, e, extra⟩] :=
        (congrArg Prod.snd h).symm
      subst htr
      refine ⟨⟨_, rfl⟩, getElem?_append_cons _ _ _, ?_⟩
      intro i req rs hne hi hreq hfetch
      have hlen : i < (t₀ ++ [(⟨symbol, limit, e, extra⟩ : Request E)]).length :=
        (List.getElem?_eq_some.mp hreq).1
      have hieq : i = t₀.length := by
        simp only [List.length_append, List.length_cons, List.length_nil] at hlen
        omega
      subst hieq
      rw [getElem?_append_cons] at hreq
      injection hreq with h2
      subst h2
      rw [hf] at hfetch
      exact Payload.noConfusion hfetch
    · rw [hf] at h
      dsimp only at h
      have htr : tr = t₀ ++ [⟨symbol, limit, e, extra⟩] :=
        (congrArg Prod.snd h).symm
      subst htr
      refine ⟨⟨_, rfl⟩, getElem?_append_cons _ _ _, ?_⟩
      intro i req rs hne hi hreq hfetch
      have hlen : i < (t₀ ++ [(⟨symbol, limit, e, extra⟩ : Request E)]).length :=
        (List.getElem?_eq_some.mp hreq).1
      have hieq : i = t₀.length := by
        simp only [List.length_append, List.length_cons, List.length_nil] at hlen
        omega
      subst hieq
      rw [getElem?_append_cons] at hreq
      injection hreq with h2
      subst h2
      rw [hf] at hfetch
      exact Payload.noConfusion hfetch
    · cases rs with
      | nil =>
        rw [hf] at h
        dsimp only at h
        have htr : tr = t₀ ++ [⟨symbol, limit, e, extra⟩] :=
          (congrArg Prod.snd h).symm
        subst htr
        refine ⟨⟨_, rfl⟩, getElem?_append_cons _ _ _, ?_⟩
        intro i req rs hne hi hreq hfetch
        have hlen : i < (t₀ ++ [(⟨symbol, limit, e, extra⟩ : Request E)]).length :=
          (List.getElem?_eq_some.mp hreq).1
        have hieq : i = t₀.length := by
          simp only [List.length_append, List.length_cons, List.length_nil] at hlen
          omega
        subst hieq
        rw [getElem?_append_cons] at hreq
        injection hreq with h2
        subst h2
        rw [hf] at hfetch
        injection hfetch with h3
        exact absurd h3.symm hne
      | cons r rest =>
        rw [hf] at h
        dsimp only at h
        by_cases hg : (r :: rest).length = limit ∧
            earliest_ms < extract_timestamp r
        · rw [if_pos hg] at h
          have hlen1 : t₀.length + 1 =
              (t₀ ++ [(⟨symbol, limit, e, extra⟩ : Request E)]).length := by
            simp
          rw [hlen1] at h
          rcases ih (some (extract_timestamp r - 1)) _ _ _ _ h with
            ⟨⟨tail, htr⟩, hp2, hp3⟩
          rw [← hlen1] at hp2
          have hreq0 : tr[t₀.length]? =
              some (⟨symbol, limit, e, extra⟩ : Request E) := by
            rw [htr, List.append_assoc, List.singleton_append]
            exact getElem?_append_cons _ _ _
          refine ⟨⟨[⟨symbol, limit, e, extra⟩] ++ tail,
            by rw [htr, List.append_assoc]⟩, hreq0, ?_⟩
          intro i req rs hne hi hreq hfetch
          rcases Nat.lt_or_ge i (t₀.length + 1) with hlt | hge
          · have hieq : i = t₀.length := by omega
            subst hieq
            rw [hreq0] at hreq
            injection hreq with h2
            subst h2
            rw [hf] at hfetch
            injection hfetch with h3
            subst h3
            refine ⟨?_, ?_⟩
            · constructor
              · intro _
                simpa using hg
              · intro _
                rw [hp2]
                rfl
            · intro _
              simp only [List.head_cons]
              exact hp2
          · have hge2 : (t₀ ++ [(⟨symbol, limit, e, extra⟩ : Request E)]).length ≤ i := by
              simp only [List.length_append, List.length_cons, List.length_nil]
              omega
            exact hp3 i req rs hne hge2 hreq hfetch
        · rw [if_neg hg] at h
          have htr : tr = t₀ ++ [⟨symbol, limit, e, extra⟩] :=
            (congrArg Prod.snd h).symm
          subst htr
          refine ⟨⟨_, rfl⟩, getElem?_append_cons _ _ _, ?_⟩
          intro i req rs hne hi hreq hfetch
          have hlen : i < (t₀ ++ [(⟨symbol, limit, e, extra⟩ : Request E)]).length :=
            (List.getElem?_eq_some.mp hreq).1
          have hieq : i = t₀.length := by
            simp only [List.length_append, List.length_cons, List.length_nil] at hlen
            omega
          subst hieq
          rw [getElem?_append_cons] at hreq
          injection hreq with h2
          subst h2
          rw [hf] at hfetch
          injection hfetch with h3
          subst h3
          have hnone : (t₀ ++ [(⟨symbol, limit, e, extra⟩ : Request E)])[t₀.length + 1]? = none := by
            apply List.getElem?_eq_none
            simp
          refine ⟨?_, ?_⟩
          · rw [hnone]
            constructor
            · intro habs
              simp at habs
            · intro h4
              exact absurd (by simpa using h4) hg
          · intro h4
            exact absurd (by simpa using h4) hg

/-- C1 (claim): after a page arrives as a non-empty list of rows, the
pagination engine issues a follow-up request if and only if the page's row
count equals the per-page limit and the first (unfiltered) row's timestamp is
strictly greater than `earliest_ms`; when it continues, the follow-up request
carries `endTime = first_ts - 1`.  Since the guard only inspects the
unfiltered first row, a full page whose `≥ earliest_ms` filtered subset is
empty still triggers continuation. -/
theorem paginate_fetch_continuation_guard {Row E : Type}
    (fetch : Nat → Request E → Payload Row) (extract_timestamp : Row → Int)
    (symbol : String) (limit : Nat) (earliest_ms : Int) (extra : E)
    (fuel : Nat) (out : List Row) (tr : List (Request E))
    (h : paginate_fetch fetch extract_timestamp symbol limit earliest_ms extra
        fuel = (some out, tr))
    (i : Nat) (req : Request E) (rs : List Row) (hne : rs ≠ [])
    (hreq : tr[i]? = some req) (hfetch : fetch i req = Payload.rows rs) :
    ((tr[i + 1]?).isSome ↔
      rs.length = limit ∧ earliest_ms < extract_timestamp (rs.head hne)) ∧
    (rs.length = limit ∧ earliest_ms < extract_timestamp (rs.head hne) →
      tr[i + 1]? = some ⟨symbol, limit,
        some (extract_timestamp (rs.head hne) - 1), extra⟩) := by
  have h1 : (paginate_fetch fetch extract_timestamp symbol limit earliest_ms
      extra fuel).1 = some out := by rw [h]
  rcases paginate_fetch_inv fetch extract_timestamp symbol limit earliest_ms
      extra fuel out h1 with ⟨acc, hl1, -, htr2⟩
  have hl2 : (paginateLoop fetch extract_timestamp symbol limit earliest_ms
      extra fuel 0 none [] []).2 = tr := by
    rw [← htr2, h]
  have hloop : paginateLoop fetch extract_timestamp symbol limit earliest_ms
      extra fuel 0 none [] [] = (some acc, tr) := by
    rw [Prod.ext_iff]
    exact ⟨hl1, hl2⟩
  have hspec := paginateLoop_trace_spec fetch extract_timestamp symbol limit
    earliest_ms extra fuel none [] [] acc tr hloop
  exact hspec.2.2 i req rs hne (Nat.zero_le i) hreq hfetch

/-- The stateful fetcher stub of the two-page scenario: first call answers a
full page with timestamps `[100, 200]`, second call a partial page `[50]`. -/
def stubFetch : Nat → Request Unit → Payload Int := fun idx _ =>
  if idx = 0 then Payload.rows [100, 200]
  else if idx = 1 then Payload.rows [50] else Payload.nullish

/-- C4 (claim): with the fetcher stubbed to return page `[100, 200]` (full,
limit 2) and then page `[50]` (partial), `paginate_fetch` with
`earliest_ms = 0` and `limit = 2` makes exactly two fetch calls — the second
with `endTime = 99` — and returns exactly `[50, 100, 200]`. -/
theorem paginate_fetch_two_page_scenario :
    paginate_fetch stubFetch (fun t => t) "X" 2 0 () 5 =
      (some [50, 100, 200], [⟨"X", 2, none, ()⟩, ⟨"X", 2, some 99, ()⟩]) := by
  rfl

/-- The hypothesis the pagination loop's termination rests on: whenever a
request carries an `endTime` cursor, every row of the page the oracle answers
has extracted timestamp `≤` that cursor (the documented contract of the
upstream API's end-time parameter). -/
def OracleBounded {Row E : Type} (fetch : Nat → Request E → Payload Row)
    (extract_timestamp : Row → Int) : Prop :=
  ∀ (idx : Nat) (req : Request E) (rs : List Row),
    fetch idx req = Payload.rows rs →
    ∀ e : Int, req.endTime = some e → ∀ r ∈ rs, extract_timestamp r ≤ e

theorem paginateLoop_terminates_of_cursor {Row E : Type}
    (fetch : Nat → Request E → Payload Row) (extract_timestamp : Row → Int)
    (symbol : String) (limit : Nat) (earliest_ms : Int) (extra : E)
    (hb : OracleBounded fetch extract_timestamp) :
    ∀ (fuel : Nat) (e : Int), (e - earliest_ms).toNat < fuel →
      ∀ (idx : Nat) (acc : List Row) (tr : List (Request E)),
        ((paginateLoop fetch extract_timestamp symbol limit earliest_ms extra
          fuel idx (some e) acc tr).1).isSome := by
  intro fuel
  induction fuel with
  | zero =>
    intro e he
    exact absurd he (Nat.not_lt_zero _)
  | succ fuel ih =>
    intro e he idx acc tr
    rw [paginateLoop]
    rcases hf : fetch idx ⟨symbol, limit, some e, extra⟩ with _ | _ | _ | rs
    · rfl
    · rfl
    · rfl
    · cases rs with
      | nil => rfl
      | cons r rest =>
        dsimp only
        by_cases hg : (r :: rest).length = limit ∧
            earliest_ms < extract_timestamp r
        · rw [if_pos hg]
          have hr : extract_timestamp r ≤ e :=
            hb idx _ _ hf e rfl r (List.mem_cons_self _ _)
          exact ih (extract_timestamp r - 1) (by omega) _ _ _
        · rw [if_neg hg]
          rfl

/-- A fetcher that ignores the cursor and always answers the same full page;
it violates `OracleBounded` and makes the pagination loop run forever. -/
def constFullFetch : Nat → Request Unit → Payload Int := fun _ _ =>
  Payload.rows [100]

theorem constFullFetch_diverges :
    ∀ (fuel idx : Nat) (e : Option Int) (acc : List Int)
      (tr : List (Request Unit)),
      (paginateLoop constFullFetch (fun t => t) "X" 1 0 () fuel idx e acc
        tr).1 = none := by
  intro fuel
  induction fuel with
  | zero => intro idx e acc tr; rfl
  | succ fuel ih =>
    intro idx e acc tr
    rw [paginateLoop]
    have hf : constFullFetch idx ⟨"X", 1, e, ()⟩ = Payload.rows [100] := rfl
    rw [hf]
    dsimp only
    rw [if_pos (by decide)]
    exact ih _ _ _ _

theorem constFullFetch_paginate_none (fuel : Nat) :
    (paginate_fetch constFullFetch (fun t => t) "X" 1 0 () fuel).1 = none := by
  rw [paginate_fetch]
  rcases hp : paginateLoop constFullFetch (fun t => t) "X" 1 0 () fuel 0 none
      [] [] with ⟨res, tr⟩
  have hres : res = none := by
    have hd := constFullFetch_diverges fuel 0 none [] []
    rw [hp] at hd
    exact hd
  subst hres
  simp

theorem paginate_fetch_fst_isSome {Row E : Type}
    (fetch : Nat → Request E → Payload Row) (extract_timestamp : Row → Int)
    (symbol : String) (limit : Nat) (earliest_ms : Int) (extra : E)
    (fuel : Nat) :
    ((paginate_fetch fetch extract_timestamp symbol limit earliest_ms extra
        fuel).1).isSome =
      ((paginateLoop fetch extract_timestamp symbol limit earliest_ms extra
        fuel 0 none [] []).1).isSome := by
  rw [paginate_fetch]
  rcases hp : paginateLoop fetch extract_timestamp symbol limit earliest_ms
      extra fuel 0 none [] [] with ⟨res, tr⟩
  cases res <;> simp

/-- C10 (claim): if the fetcher oracle honours the end-time cursor (every row
of a page answered to a request with `endTime = e` has timestamp `≤ e`), the
pagination loop terminates: some fuel suffices, because the measure
`first_ts - earliest_ms` is positive and strictly decreases across
continuations.  Without that hypothesis the loop need not terminate: the
constant-full-page fetcher exhausts every fuel. -/
theorem paginate_fetch_termination {Row E : Type}
    (fetch : Nat → Request E → Payload Row) (extract_timestamp : Row → Int)
    (symbol : String) (limit : Nat) (earliest_ms : Int) (extra : E)
    (hb : OracleBounded fetch extract_timestamp) :
    (∃ fuel, ((paginate_fetch fetch extract_timestamp symbol limit earliest_ms
        extra fuel).1).isSome) ∧
    (∀ fuel,
      (paginate_fetch constFullFetch (fun t => t) "X" 1 0 () fuel).1 = none) := by
  refine ⟨?_, constFullFetch_paginate_none⟩
  rcases hf : fetch 0 ⟨symbol, limit, none, extra⟩ with _ | _ | _ | rs
  · refine ⟨1, ?_⟩
    rw [paginate_fetch_fst_isSome, paginateLoop, hf]
    rfl
  · refine ⟨1, ?_⟩
    rw [paginate_fetch_fst_isSome, paginateLoop, hf]
    rfl
  · refine ⟨1, ?_⟩
    rw [paginate_fetch_fst_isSome, paginateLoop, hf]
    rfl
  · cases rs with
    | nil =>
      refine ⟨1, ?_⟩
      rw [paginate_fetch_fst_isSome, paginateLoop, hf]
      rfl
    | cons r rest =>
      by_cases hg : (r :: rest).length = limit ∧
          earliest_ms < extract_timestamp r
      · refine ⟨(extract_timestamp r - 1 - earliest_ms).toNat + 2, ?_⟩
        rw [paginate_fetch_fst_isSome]
        rw [show (extract_timestamp r - 1 - earliest_ms).toNat + 2 =
          ((extract_timestamp r - 1 - earliest_ms).toNat + 1) + 1 from rfl]
        rw [paginateLoop, hf]
        dsimp only
        rw [if_pos hg]
        exact paginateLoop_terminates_of_cursor fetch extract_timestamp symbol
          limit earliest_ms extra hb _ (extract_timestamp r - 1) (by omega)
          _ _ _
      · refine ⟨1, ?_⟩
        rw [paginate_fetch_fst_isSome, paginateLoop, hf]
        dsimp only
        rw [if_neg hg]
        rfl

/-! ## Lemmas about the retry loop of the fetcher -/

theorem getLoop_rate_step {β : Type} (resp : Nat → Resp β) (jit : Nat → ℚ)
    (c : Nat) (body : β) (hc200 : c ≠ 200) (hcrl : c = 429 ∨ c = 418)
    (n fuel : Nat) (hn : n + 1 ≤ MAX_RETRIES)
    (hresp : resp n = Resp.http c (some 3) body) (backoff : ℚ)
    (sleeps : List ℚ) :
    getLoop resp jit (fuel + 1) n backoff sleeps =
      getLoop resp jit fuel (n + 1) (min (backoff * 2) 60)
        (sleeps ++ [3 + jit n]) := by
  rw [getLoop, hresp]
  dsimp only
  rw [if_neg hc200, if_pos hcrl, if_neg (by omega : ¬ n + 1 > MAX_RETRIES)]
  rfl

theorem getLoop_rate_raise {β : Type} (resp : Nat → Resp β) (jit : Nat → ℚ)
    (c : Nat) (body : β) (hc200 : c ≠ 200) (hcrl : c = 429 ∨ c = 418)
    (n fuel : Nat) (hn : n + 1 > MAX_RETRIES)
    (hresp : resp n = Resp.http c (some 3) body) (backoff : ℚ)
    (sleeps : List ℚ) :
    getLoop resp jit (fuel + 1) n backoff sleeps =
      some (GetOutcome.raised GetError.rateLimited, sleeps) := by
  rw [getLoop, hresp]
  dsimp only
  rw [if_neg hc200, if_pos hcrl, if_pos hn]

theorem getLoop_rate_chain {β : Type} (resp : Nat → Resp β) (jit : Nat → ℚ)
    (body : Nat → β) (c : Nat) (hc200 : c ≠ 200) (hcrl : c = 429 ∨ c = 418)
    (hresp : ∀ m, resp m = Resp.http c (some 3) (body m)) :
    ∀ (j n fuel : Nat) (backoff : ℚ) (sleeps : List ℚ),
      n + j = MAX_RETRIES →
      getLoop resp jit (fuel + j + 1) n backoff sleeps =
        some (GetOutcome.raised GetError.rateLimited,
          sleeps ++ (List.range j).map (fun t => 3 + jit (n + t))) := by
  intro j
  induction j with
  | zero =>
    intro n fuel backoff sleeps hnj
    have h5 : MAX_RETRIES = 5 := rfl
    rw [getLoop_rate_raise resp jit c (body n) hc200 hcrl n fuel (by omega)
      (hresp n)]
    simp
  | succ j ihj =>
    intro n fuel backoff sleeps hnj
    have h5 : MAX_RETRIES = 5 := rfl
    rw [show fuel + (j + 1) + 1 = (fuel + j + 1) + 1 from rfl]
    rw [getLoop_rate_step resp jit c (body n) hc200 hcrl n (fuel + j + 1)
      (by omega) (hresp n)]
    rw [ihj (n + 1) fuel (min (backoff * 2) 60) (sleeps ++ [3 + jit n])
      (by omega)]
    have hfun : ((fun t => 3 + jit (n + t)) ∘ Nat.succ) =
        (fun t => 3 + jit (n + 1 + t)) := by
      funext t
      simp only [Function.comp]
      congr 1
      congr 1
      omega
    have hr : (List.range (j + 1)).map (fun t => 3 + jit (n + t)) =
        (3 + jit n) :: (List.range j).map (fun t => 3 + jit (n + 1 + t)) := by
      rw [List.range_succ_eq_map, List.map_cons, List.map_map, hfun]
      norm_num
    rw [hr, List.append_assoc]
    rfl

/-- C5 (claim): when every response is a 429 (or 418) carrying
`Retry-After: 3`, `_get` sleeps `3 + jitter` (at least 3 seconds, the jitter
being drawn from `[0, 1)`) before each of its five retries, and raises the
rate-limit exhaustion error once the attempt count exceeds
`MAX_RETRIES = 5`. -/
theorem get_retry_after_exhaustion {β : Type} (resp : Nat → Resp β)
    (jit : Nat → ℚ) (body : Nat → β) (c : Nat) (hc : c = 429 ∨ c = 418)
    (hresp : ∀ n, resp n = Resp.http c (some 3) (body n))
    (hjit : ∀ n, 0 ≤ jit n ∧ jit n < 1) (k : Nat) :
    _get resp jit (k + 6) =
      some (GetOutcome.raised GetError.rateLimited,
        [3 + jit 0, 3 + jit 1, 3 + jit 2, 3 + jit 3, 3 + jit 4]) ∧
    ∀ s ∈ [(3 : ℚ) + jit 0, 3 + jit 1, 3 + jit 2, 3 + jit 3, 3 + jit 4],
      3 ≤ s := by
  have hc200 : c ≠ 200 := by rcases hc with rfl | rfl <;> decide
  constructor
  · rw [_get]
    rw [show k + 6 = k + 5 + 1 from rfl]
    rw [getLoop_rate_chain resp jit body c hc200 hc hresp 5 0 k 5 [] rfl]
    simp [List.range_succ]
  · intro s hs
    have hge : ∀ n, (3 : ℚ) ≤ 3 + jit n := fun n =>
      le_add_of_nonneg_right (hjit n).1
    simp only [List.mem_cons, List.mem_singleton, List.not_mem_nil,
      or_false] at hs
    rcases hs with rfl | rfl | rfl | rfl | rfl
    · exact hge 0
    · exact hge 1
    · exact hge 2
    · exact hge 3
    · exact hge 4

/-- C6 (claim): on an HTTP 400 response `_get` returns `None` immediately:
no retry, no sleep, no raise — whatever fuel remains. -/
theorem get_bad_request_nothing {β : Type} (resp : Nat → Resp β)
    (jit : Nat → ℚ) (retryAfter : Option ℚ) (body : β)
    (hresp : resp 0 = Resp.http 400 retryAfter body) (fuel : Nat)
    (hf : 1 ≤ fuel) :
    _get resp jit fuel = some (GetOutcome.nothing, []) := by
  obtain ⟨k, rfl⟩ : ∃ k, fuel = k + 1 := ⟨fuel - 1, by omega⟩
  rw [_get, getLoop, hresp]
  dsimp only
  rw [if_neg (by decide : ¬ (400 : Nat) = 200),
    if_neg (by decide : ¬ ((400 : Nat) = 429 ∨ (400 : Nat) = 418)),
    if_pos rfl]

/-- C7 (amended): for every HTTP status in `[400, 600)` other than 400, 429
and 418, `_get` raises the fatal `HTTPError` immediately on the first such
response, without retrying and without sleeping.  (Statuses outside
`[400, 600)` other than 200 — e.g. 204 or 304 — do not raise:
`response.raise_for_status()` returns and the loop silently re-requests.) -/
theorem get_other_4xx_5xx_raises {β : Type} (resp : Nat → Resp β)
    (jit : Nat → ℚ) (c : Nat) (retryAfter : Option ℚ) (body : β)
    (h4 : 400 ≤ c) (h6 : c < 600) (h400 : c ≠ 400) (h429 : c ≠ 429)
    (h418 : c ≠ 418) (hresp : resp 0 = Resp.http c retryAfter body)
    (fuel : Nat) (hf : 1 ≤ fuel) :
    _get resp jit fuel = some (GetOutcome.raised (GetError.httpError c), []) := by
  obtain ⟨k, rfl⟩ : ∃ k, fuel = k + 1 := ⟨fuel - 1, by omega⟩
  rw [_get, getLoop, hresp]
  dsimp only
  rw [if_neg (by omega : ¬ c = 200),
    if_neg (fun h => h.elim h429 h418),
    if_neg h400, if_pos ⟨h4, h6⟩]

/-- A server that always answers HTTP 304 (no body to parse, no
`Retry-After`). -/
def resp304 : Nat → Resp Unit := fun _ => Resp.http 304 none ()

/-- A jitter oracle that always draws 0. -/
def jitZero : Nat → ℚ := fun _ => 0

/-- C7 (counterexample): against the always-304 server, `_get` does not raise
on the first response — after 1 and even after 20 processed responses the
retry loop is still running (fuel exhausted, nothing returned and nothing
raised), because `response.raise_for_status()` only raises for statuses in
`[400, 600)` and the loop then falls through to the next iteration. -/
theorem get_304_loops_without_raising :
    _get resp304 jitZero 1 = none ∧ _get resp304 jitZero 20 = none :=
  ⟨rfl, rfl⟩

/-! ## Lemmas about the collection driver -/

theorem collect_fold_spec {Row : Type} (collected_at : String) :
    ∀ (tasks : List (String × LoadResult Row))
      (st : FetchStats × List (OutFile Row)),
      (tasks.foldl (collectStep collected_at) st).1.success =
          st.1.success + (tasks.filter (fun t => persists t.2)).length ∧
      (tasks.foldl (collectStep collected_at) st).1.skipped =
          st.1.skipped + (tasks.filter (fun t => ! persists t.2)).length ∧
      (tasks.foldl (collectStep collected_at) st).2 =
          st.2 ++ tasks.filterMap (fileOf collected_at) := by
  intro tasks
  induction tasks with
  | nil => intro st; simp
  | cons t rest ih =>
    intro st
    rcases t with ⟨name, lr⟩
    cases lr with
    | err =>
      have h := ih (⟨st.1.success, st.1.skipped + 1⟩, st.2)
      have hstep : collectStep collected_at st (name, LoadResult.err) =
          (⟨st.1.success, st.1.skipped + 1⟩, st.2) := rfl
      rw [List.foldl_cons, hstep]
      refine ⟨?_, ?_, ?_⟩
      · rw [h.1]
        simp [List.filter_cons, persists]
      · rw [h.2.1]
        simp only [List.filter_cons, persists]
        simp
        omega
      · rw [h.2.2]
        simp [List.filterMap_cons, fileOf]
    | frame rows =>
      cases rows with
      | nil =>
        have h := ih (⟨st.1.success, st.1.skipped + 1⟩, st.2)
        have hstep : collectStep collected_at st (name, LoadResult.frame []) =
            (⟨st.1.success, st.1.skipped + 1⟩, st.2) := rfl
        rw [List.foldl_cons, hstep]
        refine ⟨?_, ?_, ?_⟩
        · rw [h.1]
          simp [List.filter_cons, persists]
        · rw [h.2.1]
          simp only [List.filter_cons, persists]
          simp
          omega
        · rw [h.2.2]
          simp [List.filterMap_cons, fileOf]
      | cons r rrest =>
        have h := ih (⟨st.1.success + 1, st.1.skipped⟩,
          st.2 ++ [write_with_metadata collected_at (OUT_DIR ++ "/" ++ name)
            (r :: rrest)])
        have hstep : collectStep collected_at st
            (name, LoadResult.frame (r :: rrest)) =
            (⟨st.1.success + 1, st.1.skipped⟩,
              st.2 ++ [write_with_metadata collected_at
                (OUT_DIR ++ "/" ++ name) (r :: rrest)]) := rfl
        rw [List.foldl_cons, hstep]
        refine ⟨?_, ?_, ?_⟩
        · rw [h.1]
          simp only [List.filter_cons, persists]
          simp
          omega
        · rw [h.2.1]
          simp [List.filter_cons, persists]
        · rw [h.2.2]
          simp [List.filterMap_cons, fileOf, write_with_metadata]

theorem zip_filter_length {Row : Type} (p : LoadResult Row → Bool) :
    ∀ (names : List String) (loaders : List (LoadResult Row)),
      names.length = loaders.length →
      ((names.zip loaders).filter (fun t => p t.2)).length =
        (loaders.filter p).length := by
  intro names
  induction names with
  | nil =>
    intro loaders h
    cases loaders with
    | nil => simp
    | cons l ls => simp at h
  | cons nm ns ih =>
    intro loaders h
    cases loaders with
    | nil => simp at h
    | cons l ls =>
      simp only [List.zip_cons_cons, List.filter_cons]
      by_cases hp : p l
      · simp [hp, ih ls (by simpa using h)]
      · simp [hp, ih ls (by simpa using h)]

/-- C8 (claim): for the ten dataset tasks of a symbol, each loader outcome is
handled independently and exactly one way — a raising loader or an empty
table increments `skipped` and writes nothing, a non-empty table is written
as a file headed by the one-line collection-timestamp metadata header and
increments `success` — and later tasks still run whatever earlier ones did
(the final counters account for every task). -/
theorem collect_symbol_outcomes {Row : Type} (symbol : String)
    (loaders : List (LoadResult Row)) (stats : FetchStats)
    (collected_at : String) (hlen : loaders.length = 10) :
    (task_filenames symbol).length = 10 ∧
    (collect_symbol symbol loaders stats collected_at).1.success =
        stats.success + (loaders.filter persists).length ∧
    (collect_symbol symbol loaders stats collected_at).1.skipped =
        stats.skipped + (loaders.filter (fun l => ! persists l)).length ∧
    (collect_symbol symbol loaders stats collected_at).2 =
        ((task_filenames symbol).zip loaders).filterMap
          (fileOf collected_at) ∧
    (∀ f ∈ (collect_symbol symbol loaders stats collected_at).2,
        f.metaLine = "# collected_at_kst," ++ collected_at) := by
  have hnames : (task_filenames symbol).length = 10 := by
    simp [task_filenames]
  have hspec := collect_fold_spec collected_at
    ((task_filenames symbol).zip loaders) (stats, [])
  rw [collect_symbol]
  refine ⟨hnames, ?_, ?_, ?_, ?_⟩
  · rw [hspec.1, zip_filter_length persists _ _ (by rw [hnames, hlen])]
  · rw [hspec.2.1,
      zip_filter_length (fun l => ! persists l) _ _ (by rw [hnames, hlen])]
  · rw [hspec.2.2]
    simp
  · intro f hf
    rw [hspec.2.2] at hf
    rw [List.nil_append] at hf
    rcases List.mem_filterMap.mp hf with ⟨t, ht, hfile⟩
    rcases t with ⟨nm, lr⟩
    cases lr with
    | err => simp [fileOf] at hfile
    | frame rows =>
      cases rows with
      | nil => simp [fileOf] at hfile
      | cons r rrest =>
        have hf2 : f = write_with_metadata collected_at
            (OUT_DIR ++ "/" ++ nm) (r :: rrest) := by
          simpa [fileOf] using hfile.symm
        rw [hf2]
        rfl

/-- C9 (claim): `main` returns exit code 0 if and only if the run's final
success counter is positive (at least one dataset was persisted across all
symbols and datasets), and returns 1 otherwise. -/
theorem main_exit_code {Row : Type}
    (results : String → List (LoadResult Row)) (collected_at : String) :
    ((main results collected_at).1 = 0 ↔
      0 < (main results collected_at).2.1.success) ∧
    ((main results collected_at).2.1.success = 0 →
      (main results collected_at).1 = 1) := by
  have hmain : main results collected_at =
      ((if 0 < (collect_all results collected_at).1.success then 0 else 1),
        collect_all results collected_at) := rfl
  rw [hmain]
  by_cases h : 0 < (collect_all results collected_at).1.success
  · rw [if_pos h]
    refine ⟨⟨fun _ => h, fun _ => rfl⟩, ?_⟩
    intro h2
    have h3 : (collect_all results collected_at).1.success = 0 := h2
    omega
  · rw [if_neg h]
    refine ⟨⟨fun h1 => absurd h1 (by simp), fun h2 => absurd h2 h⟩,
      fun _ => rfl⟩

/-! ## Concrete witnesses -/

/-- A server that always answers 429 with `Retry-After: 3`. -/
def resp429 : Nat → Resp Unit := fun _ => Resp.http 429 (some 3) ()

/-- A jitter oracle that always draws 1/2. -/
def jitHalf : Nat → ℚ := fun _ => 1 / 2

/-- A server that always answers HTTP 400. -/
def resp400 : Nat → Resp Unit := fun _ => Resp.http 400 none ()

/-- A server that always answers HTTP 503. -/
def resp503 : Nat → Resp Unit := fun _ => Resp.http 503 none ()

/-- A fetcher whose every answer is falsy. -/
def nullFetch : Nat → Request Unit → Payload Int := fun _ _ => Payload.nullish

/-- Ten loader outcomes mixing the three cases of the driver loop. -/
def demoLoaders : List (LoadResult Int) :=
  [.err, .frame [], .frame [1], .err, .frame [2, 3], .frame [], .frame [4],
    .err, .frame [], .frame [5]]

theorem paginate_fetch_continuation_guard_witness :
    (paginate_fetch stubFetch (fun t => t) "X" 2 0 () 5 =
      (some [50, 100, 200], [⟨"X", 2, none, ()⟩, ⟨"X", 2, some 99, ()⟩])) ∧
    ([(⟨"X", 2, none, ()⟩ : Request Unit), ⟨"X", 2, some 99, ()⟩][0]? =
      some ⟨"X", 2, none, ()⟩) ∧
    (stubFetch 0 ⟨"X", 2, none, ()⟩ = Payload.rows [100, 200]) ∧
    ((([(⟨"X", 2, none, ()⟩ : Request Unit),
          ⟨"X", 2, some 99, ()⟩][0 + 1]?).isSome ↔
        ([100, 200] : List Int).length = 2 ∧ (0 : Int) < 100) ∧
      (([100, 200] : List Int).length = 2 ∧ (0 : Int) < 100 →
        [(⟨"X", 2, none, ()⟩ : Request Unit), ⟨"X", 2, some 99, ()⟩][0 + 1]? =
          some ⟨"X", 2, some 99, ()⟩)) := by
  refine ⟨rfl, rfl, rfl, ?_⟩
  have hne : ([100, 200] : List Int) ≠ [] := by simp
  exact paginate_fetch_continuation_guard stubFetch (fun t => t) "X" 2 0 () 5
    [50, 100, 200] [⟨"X", 2, none, ()⟩, ⟨"X", 2, some 99, ()⟩] rfl 0
    ⟨"X", 2, none, ()⟩ [100, 200] hne rfl rfl

theorem paginate_fetch_sorted_nodup_witness :
    ((paginate_fetch stubFetch (fun t => t) "X" 2 0 () 5).1 =
      some [50, 100, 200]) ∧
    ([50, 100, 200] : List Int).Pairwise (fun a b => a < b) :=
  ⟨rfl, paginate_fetch_sorted_nodup stubFetch (fun t => t) "X" 2 0 () 5
    [50, 100, 200] rfl⟩

theorem paginate_fetch_earliest_bound_witness :
    ((paginate_fetch stubFetch (fun t => t) "X" 2 0 () 5).1 =
      some [50, 100, 200]) ∧
    (∀ r ∈ ([50, 100, 200] : List Int), (0 : Int) ≤ r) ∧
    fetch_klines_refilter (fun t => t) 0 [50, 100, 200] = [50, 100, 200] := by
  have h := paginate_fetch_earliest_bound stubFetch (fun t => t) "X" 2 0 () 5
    [50, 100, 200] rfl
  exact ⟨rfl, h.1, h.2⟩

theorem get_retry_after_exhaustion_witness :
    ((429 : Nat) = 429 ∨ (429 : Nat) = 418) ∧
    (∀ n, resp429 n = Resp.http 429 (some 3) ()) ∧
    (∀ n, 0 ≤ jitHalf n ∧ jitHalf n < 1) ∧
    (_get resp429 jitHalf (0 + 6) =
        some (GetOutcome.raised GetError.rateLimited,
          [3 + jitHalf 0, 3 + jitHalf 1, 3 + jitHalf 2, 3 + jitHalf 3,
            3 + jitHalf 4]) ∧
      ∀ s ∈ [(3 : ℚ) + jitHalf 0, 3 + jitHalf 1, 3 + jitHalf 2,
          3 + jitHalf 3, 3 + jitHalf 4], 3 ≤ s) := by
  have h1 : ∀ n, resp429 n = Resp.http 429 (some 3) () := fun n => rfl
  have h2 : ∀ n, 0 ≤ jitHalf n ∧ jitHalf n < 1 := fun n =>
    ⟨by norm_num [jitHalf], by norm_num [jitHalf]⟩
  exact ⟨Or.inl rfl, h1, h2,
    get_retry_after_exhaustion resp429 jitHalf (fun _ => ()) 429 (Or.inl rfl)
      h1 h2 0⟩

theorem get_bad_request_nothing_witness :
    resp400 0 = Resp.http 400 none () ∧ 1 ≤ 3 ∧
      _get resp400 jitZero 3 = some (GetOutcome.nothing, []) :=
  ⟨rfl, by norm_num,
    get_bad_request_nothing resp400 jitZero none () rfl 3 (by norm_num)⟩

theorem get_other_4xx_5xx_raises_witness :
    ((400 : Nat) ≤ 503 ∧ (503 : Nat) < 600 ∧ (503 : Nat) ≠ 400 ∧
      (503 : Nat) ≠ 429 ∧ (503 : Nat) ≠ 418) ∧
    resp503 0 = Resp.http 503 none () ∧
    _get resp503 jitZero 4 =
      some (GetOutcome.raised (GetError.httpError 503), []) := by
  refine ⟨by norm_num, rfl, ?_⟩
  exact get_other_4xx_5xx_raises resp503 jitZero 503 none () (by norm_num)
    (by norm_num) (by norm_num) (by norm_num) (by norm_num) rfl 4 (by norm_num)

theorem collect_symbol_outcomes_witness :
    demoLoaders.length = 10 ∧
    ((task_filenames "BTCUSDT").length = 10 ∧
      (collect_symbol "BTCUSDT" demoLoaders ⟨1, 2⟩ "t0").1.success =
          1 + (demoLoaders.filter persists).length ∧
      (collect_symbol "BTCUSDT" demoLoaders ⟨1, 2⟩ "t0").1.skipped =
          2 + (demoLoaders.filter (fun l => ! persists l)).length ∧
      (collect_symbol "BTCUSDT" demoLoaders ⟨1, 2⟩ "t0").2 =
          ((task_filenames "BTCUSDT").zip demoLoaders).filterMap
            (fileOf "t0") ∧
      (∀ f ∈ (collect_symbol "BTCUSDT" demoLoaders ⟨1, 2⟩ "t0").2,
          f.metaLine = "# collected_at_kst," ++ "t0")) :=
  ⟨rfl, collect_symbol_outcomes "BTCUSDT" demoLoaders ⟨1, 2⟩ "t0" rfl⟩

theorem paginate_fetch_termination_witness :
    OracleBounded nullFetch (fun t => t) ∧
    ((∃ fuel, ((paginate_fetch nullFetch (fun t => t) "A" 1 0 ()
        fuel).1).isSome) ∧
      (∀ fuel,
        (paginate_fetch constFullFetch (fun t => t) "X" 1 0 () fuel).1 =
          none)) := by
  have hb : OracleBounded nullFetch (fun t => t) := by
    intro idx req rs h
    exact absurd h (by simp [nullFetch])
  exact ⟨hb, paginate_fetch_termination nullFetch (fun t => t) "A" 1 0 () hb⟩

end Collector
